import Mathlib

/-!
Shallow embedding of the real-time audio engine in `auto-kj/audio.py`:
the Schroeder reverb, the 3:1 decimator inside the JACK process callback,
the frame channel (`get_frame`), and the playback injector's resampler.

Python floats are modelled as rationals (`ℚ`); all operations exercised by
the theorems below (multiplication by integer constants, comparisons,
clipping, truncation) are exact on the values involved. int16 samples are
modelled as `ℤ` with explicit clamping to the int16 range.
-/

set_option autoImplicit false
set_option maxRecDepth 10000

namespace AutoKJ

/-- Constant `JACK_RATE = 48000` in audio.py. -/
def JACK_RATE : Nat := 48000

/-- Constant `FRAME_SIZE = 1280` in audio.py. -/
def FRAME_SIZE : Nat := 1280

/-- Truncation toward zero of a rational, as performed by
`numpy.ndarray.astype(np.int16)` and Python's `int()` on non-negative and
negative values alike. -/
def truncQ (q : ℚ) : ℤ := if 0 ≤ q then ⌊q⌋ else -⌊-q⌋

/-- The conversion `np.clip(x * 32767, -32768, 32767).astype(np.int16)` applied to one
sample (audio.py line 225): scale by 32767, clamp to the int16 range,
truncate toward zero. -/
def toInt16 (x : ℚ) : ℤ := truncQ (min 32767 (max (-32768) (x * 32767)))

/-- The slice `self._ds_buf[:n_out * 3:3]` (audio.py line 222): every third element,
starting from index 0. -/
def takeEvery3 : List ℚ → List ℚ
  | [] => []
  | [x] => [x]
  | [x, _] => [x]
  | x :: _ :: _ :: rest => x :: takeEvery3 rest

/-- One execution of the downsampling section of `_process_callback`
(audio.py lines 217–228): append the new block to the carry buffer, emit
every third sample of the largest multiple-of-3 prefix converted to int16,
and retain the remainder.  Returns `(emitted int16 chunk, new carry)`;
the chunk is empty exactly when `n_out = 0`, in which case the Python code
pushes nothing to the frame buffer. -/
def decimStep (buf block : List ℚ) : List ℤ × List ℚ :=
  let accum := buf ++ block
  let n := accum.length / 3
  ((takeEvery3 (accum.take (3 * n))).map toInt16, accum.drop (3 * n))

/-- One fold step of the decimator across calls: run `decimStep` on the
current carry and record the emitted chunk. -/
def decimFold (acc : List (List ℤ) × List ℚ) (block : List ℚ) :
    List (List ℤ) × List ℚ :=
  (acc.1 ++ [(decimStep acc.2 block).1], (decimStep acc.2 block).2)

/-- Feeding a sequence of native-rate blocks through `decimStep`, starting
from an empty carry buffer: returns the emitted chunks, in order, and the
final carry buffer. -/
def runDecimator (blocks : List (List ℚ)) : List (List ℤ) × List ℚ :=
  blocks.foldl decimFold ([], [])

theorem takeEvery3_length (l : List ℚ) :
    (takeEvery3 l).length = (l.length + 2) / 3 := by
  induction l using takeEvery3.induct with
  | case1 => rfl
  | case2 x => simp [takeEvery3]
  | case3 x y => simp [takeEvery3]
  | case4 x y z rest ih =>
    simp only [takeEvery3, List.length_cons, ih]
    omega

theorem decimStep_emit_length (buf block : List ℚ) :
    (decimStep buf block).1.length = (buf.length + block.length) / 3 := by
  simp only [decimStep, List.length_map, takeEvery3_length, List.length_take,
    List.length_append]
  omega

theorem decimStep_carry_length (buf block : List ℚ) :
    (decimStep buf block).2.length = (buf.length + block.length) % 3 := by
  simp only [decimStep, List.length_drop, List.length_append]
  omega

theorem runDecimator_measure (blocks : List (List ℚ)) :
    ∀ (emitted : List (List ℤ)) (buf : List ℚ),
      3 * (((blocks.foldl decimFold (emitted, buf)).1.map List.length).sum)
        + (blocks.foldl decimFold (emitted, buf)).2.length
      = 3 * ((emitted.map List.length).sum) + buf.length
        + (blocks.map List.length).sum := by
  induction blocks with
  | nil => intro emitted buf; simp
  | cons block rest ih =>
    intro emitted buf
    simp only [List.foldl_cons, List.map_cons, List.sum_cons]
    rw [show decimFold (emitted, buf) block
        = (emitted ++ [(decimStep buf block).1], (decimStep buf block).2) from rfl]
    rw [ih (emitted ++ [(decimStep buf block).1]) (decimStep buf block).2]
    simp only [List.map_append, List.sum_append, List.map_cons, List.sum_cons,
      List.map_nil, List.sum_nil, decimStep_emit_length, decimStep_carry_length]
    omega

theorem runDecimator_carry_small (blocks : List (List ℚ)) :
    ∀ (emitted : List (List ℤ)) (buf : List ℚ), buf.length < 3 →
      (blocks.foldl decimFold (emitted, buf)).2.length < 3 := by
  induction blocks with
  | nil => intro emitted buf h; simpa using h
  | cons block rest ih =>
    intro emitted buf _
    simp only [List.foldl_cons]
    rw [show decimFold (emitted, buf) block
        = (emitted ++ [(decimStep buf block).1], (decimStep buf block).2) from rfl]
    exact ih _ _ (by rw [decimStep_carry_length]; omega)

/-- C1: across any sequence of native-rate blocks, the decimator's retained
carry buffer has length equal to the total sample count modulo 3, the total
number of emitted decimated samples is `total / 3`, and when the total is a
multiple of 3 the carry buffer is empty. -/
theorem decimator_invariant (blocks : List (List ℚ)) :
    (runDecimator blocks).2.length = (blocks.map List.length).sum % 3 ∧
    (((runDecimator blocks).1.map List.length).sum
      = (blocks.map List.length).sum / 3) ∧
    ((blocks.map List.length).sum % 3 = 0 → (runDecimator blocks).2 = []) := by
  have hm := runDecimator_measure blocks [] []
  have hc := runDecimator_carry_small blocks [] [] (by simp)
  simp only [List.map_nil, List.sum_nil, List.length_nil] at hm hc
  unfold runDecimator
  refine ⟨by omega, by omega, fun h0 => ?_⟩
  rw [← List.length_eq_zero]
  omega

/-- Witness for C1 at a concrete input: two 3-sample blocks (total 6, a
multiple of 3) leave an empty carry and emit `6 / 3 = 2` samples. -/
theorem decimator_invariant_witness :
    (runDecimator [[1, 2, 3], [4, 5, 6]]).2 = [] ∧
    (((runDecimator [[1, 2, 3], [4, 5, 6]]).1.map List.length).sum = 2) := by
  have h := decimator_invariant [[1, 2, 3], [4, 5, 6]]
  exact ⟨h.2.2 (by decide), by simpa using h.2.1⟩

/-- State of one `scipy.signal.lfilter` filter as stored in
`SchroederReverb._combs` / `._allpasses`: numerator `b`, denominator `a`
(with `a[0] = 1`), and the internal conditions `zi` (length = delay). -/
structure Filt where
  b : List ℚ
  a : List ℚ
  zi : List ℚ
deriving Repr, DecidableEq

/-- One sample of `scipy.signal.lfilter` in direct form II transposed
(the algorithm scipy documents and implements), assuming `a[0] = 1`:
`y = b[0]*x + z[0]`, then `z[i] = b[i+1]*x + z[i+1] - a[i+1]*y`
(with `z[order]` read as 0). -/
def lfilterStep (b a : List ℚ) (x : ℚ) (z : List ℚ) : ℚ × List ℚ :=
  let y := b.headD 0 * x + z.headD 0
  (y, (List.range z.length).map fun i =>
        b.getD (i + 1) 0 * x + z.getD (i + 1) 0 - a.getD (i + 1) 0 * y)

/-- Model of `out, zi_new = lfilter(b, a, block, zi=zi)`: run the filter over a whole
block, returning the output block and the final internal conditions. -/
def lfilterRun (b a : List ℚ) (zi : List ℚ) : List ℚ → List ℚ × List ℚ
  | [] => ([], zi)
  | x :: xs =>
    let s := lfilterStep b a x zi
    let r := lfilterRun b a s.2 xs
    (s.1 :: r.1, r.2)

/-- Comb-filter delays of `SchroederReverb.__init__`, tuned at 44100 Hz. -/
def combDelaysRef : List Nat := [1557, 1617, 1491, 1422]

/-- Comb-filter feedback gains of `SchroederReverb.__init__`. -/
def combGains : List ℚ := [74/100, 71/100, 68/100, 65/100]

/-- Allpass delays of `SchroederReverb.__init__`, tuned at 44100 Hz. -/
def apDelaysRef : List Nat := [225, 556]

/-- Allpass gain of `SchroederReverb.__init__`. -/
def apGain : ℚ := 1/2

/-- Model of `int(d * rate / 44100)` (audio.py lines 27 and 43): Python truncating
conversion of an exact non-negative quotient, i.e. `Nat` division. -/
def scaleDelay (d rate : Nat) : Nat := d * rate / 44100

/-- Comb numerator: `b = zeros(d+1); b[d] = 1`. -/
def combB (d : Nat) : List ℚ :=
  (List.range (d + 1)).map fun i => if i = d then 1 else 0

/-- Comb/allpass denominator: `a = zeros(d+1); a[0] = 1; a[d] = -g`
(for `d = 0` the second store wins, as in numpy). -/
def filtA (d : Nat) (g : ℚ) : List ℚ :=
  (List.range (d + 1)).map fun i => if i = d then -g else if i = 0 then 1 else 0

/-- Allpass numerator: `b = zeros(d+1); b[0] = -g; b[d] = 1`. -/
def apB (d : Nat) (g : ℚ) : List ℚ :=
  (List.range (d + 1)).map fun i => if i = d then 1 else if i = 0 then -g else 0

/-- The `SchroederReverb` object: wet ratio plus the persistent filter
states of the 4 parallel combs and 2 series allpasses. -/
structure SchroederReverb where
  wet : ℚ
  combs : List Filt
  allpasses : List Filt
deriving Repr, DecidableEq

/-- Model of `SchroederReverb.__init__(rate, wet)` (audio.py lines 24–67). -/
def SchroederReverb.init (rate : Nat) (wet : ℚ) : SchroederReverb :=
  { wet := wet
    combs := List.zipWith
      (fun d g =>
        let dd := scaleDelay d rate
        Filt.mk (combB dd) (filtA dd g) (List.replicate dd 0))
      combDelaysRef combGains
    allpasses := apDelaysRef.map fun d =>
      let dd := scaleDelay d rate
      Filt.mk (apB dd apGain) (filtA dd apGain) (List.replicate dd 0) }

/-- Model of `SchroederReverb.process(block)` (audio.py lines 69–92): early return of
the block itself when `wet <= 0`; otherwise the 4 combs run in parallel on
the block, their sum is scaled by 0.25, the 2 allpasses run in series, and
the wet/dry mix is clipped to [-1, 1].  Returns the output block and the
reverb object with its updated filter states. -/
def SchroederReverb.process (r : SchroederReverb) (block : List ℚ) :
    List ℚ × SchroederReverb :=
  if r.wet ≤ 0 then (block, r)
  else
    let n := block.length
    let combOut := r.combs.map fun f =>
      let p := lfilterRun f.b f.a f.zi block
      (p.1, Filt.mk f.b f.a p.2)
    let combSum := combOut.foldl
      (fun acc p => List.zipWith (· + ·) acc p.1) (List.replicate n (0 : ℚ))
    let scaled := combSum.map (· * (1/4))
    let apOut := r.allpasses.foldl
      (fun (acc : List ℚ × List Filt) f =>
        let p := lfilterRun f.b f.a f.zi acc.1
        (p.1, acc.2 ++ [Filt.mk f.b f.a p.2]))
      (scaled, [])
    let mixed := List.zipWith
      (fun x s => x * (1 - r.wet) + s * r.wet) block apOut.1
    (mixed.map fun v => max (-1) (min 1 v),
     SchroederReverb.mk r.wet (combOut.map Prod.snd) apOut.2)

/-- C3: whenever the wet ratio is ≤ 0, `process` returns the input block
unchanged and leaves the whole reverb object (hence every comb and allpass
filter state) exactly as it was. -/
theorem reverb_process_dry_identity (r : SchroederReverb) (block : List ℚ)
    (h : r.wet ≤ 0) : r.process block = (block, r) := by
  unfold SchroederReverb.process
  rw [if_pos h]

/-- Witness for C3: a reverb constructed with wet ratio 0 passes a concrete
block through untouched. -/
theorem reverb_process_dry_identity_witness :
    (SchroederReverb.init 48000 0).wet ≤ 0 ∧
    (SchroederReverb.init 48000 0).process [1/2, -1/3]
      = ([1/2, -1/3], SchroederReverb.init 48000 0) :=
  ⟨le_refl 0, reverb_process_dry_identity _ _ (le_refl 0)⟩

theorem natFloor_div_44100 (m : Nat) :
    ⌊((m : ℚ)) / 44100⌋₊ = m / 44100 := by
  have h := Nat.floor_div_eq_div (α := ℚ) m 44100
  push_cast at h
  exact h

/-- C6 counterexample: the first comb filter of a reverb built at the
native rate 48000 has delay-line length `int(1557 * 48000 / 44100) = 1694`,
but the claimed formula `round(1557 * 48000 / 44100)` gives 1695. -/
theorem reverb_delay_round_counterexample :
    ¬ ((((SchroederReverb.init 48000 (3/10)).combs.headD
          (Filt.mk [] [] [])).zi.length : ℤ)
        = round ((1557 * 48000 : ℚ) / 44100)) := by
  have h1 : (((SchroederReverb.init 48000 (3/10)).combs.headD
      (Filt.mk [] [] [])).zi.length) = 1694 := by
    show (List.replicate (scaleDelay 1557 48000) (0 : ℚ)).length = 1694
    rw [List.length_replicate]
    decide
  have h2 : round ((1557 * 48000 : ℚ) / 44100) = 1695 := by
    rw [round_eq]
    norm_num
  rw [h1, h2]
  decide

/-- C6 (amended): every comb and allpass delay-line length equals
`floor(reference_delay * rate / 44100)` — truncation, not rounding. -/
theorem reverb_delay_floor (rate : Nat) (wet : ℚ) :
    ((SchroederReverb.init rate wet).combs.map fun f => f.zi.length)
        = combDelaysRef.map (fun d : ℕ => ⌊(d : ℚ) * (rate : ℚ) / 44100⌋₊) ∧
    ((SchroederReverb.init rate wet).allpasses.map fun f => f.zi.length)
        = apDelaysRef.map (fun d : ℕ => ⌊(d : ℚ) * (rate : ℚ) / 44100⌋₊) := by
  have key : ∀ d : Nat, ⌊(d * rate : ℚ) / 44100⌋₊ = scaleDelay d rate := by
    intro d
    have h := natFloor_div_44100 (d * rate)
    push_cast at h
    exact h
  constructor
  · rw [List.map_congr_left (fun d _ => key d)]
    simp [SchroederReverb.init, combDelaysRef, combGains]
  · rw [List.map_congr_left (fun d _ => key d)]
    simp [SchroederReverb.init, apDelaysRef]

/-- The fields of `JackAudioEngine` that the process callback reads or
writes: monitor configuration (`_software_monitor`, `_monitor_muted`,
`_gain`, `_reverb`) and the decimation pipeline (`_ds_buf`, `_frame_buf`).
In hardware-monitor mode the engine has no monitor state; here the unused
fields are simply never read. -/
structure EngineState where
  softwareMonitor : Bool
  monitorMuted : Bool
  gain : ℚ
  reverb : SchroederReverb
  dsBuf : List ℚ
  frameBuf : List (List ℤ)
deriving Repr, DecidableEq

/-- Model of `JackAudioEngine._process_callback` (audio.py lines 202–228), as a
function of the engine state and the captured mic block.  Returns the new
engine state and, in software-monitor mode, the block written to both
monitor output ports (`none` when no monitor ports exist).  The decimation
section appends the mic block to `_ds_buf`, emits every third sample of the
largest multiple-of-3 prefix as an int16 chunk appended to `_frame_buf`
(only when at least one output sample is produced), and keeps the
remainder. -/
def processCallback (st : EngineState) (micData : List ℚ) :
    EngineState × Option (List ℚ × List ℚ) :=
  let mon : SchroederReverb × Option (List ℚ × List ℚ) :=
    if st.softwareMonitor then
      if st.monitorMuted then
        (st.reverb, some (List.replicate micData.length 0,
                          List.replicate micData.length 0))
      else
        let p := st.reverb.process (micData.map (· * st.gain))
        (p.2, some (p.1, p.1))
    else (st.reverb, none)
  let d := decimStep st.dsBuf micData
  ({ st with
      reverb := mon.1
      dsBuf := d.2
      frameBuf := if 0 < d.1.length then st.frameBuf ++ [d.1] else st.frameBuf },
   mon.2)

/-- C8: in software-monitor mode with the monitor muted, the callback
writes all-zero blocks (of the input's length) to both monitor output
ports, for every engine state and every input block. -/
theorem callback_muted_silence (st : EngineState) (micData : List ℚ)
    (hs : st.softwareMonitor = true) (hm : st.monitorMuted = true) :
    (processCallback st micData).2
      = some (List.replicate micData.length 0,
              List.replicate micData.length 0) := by
  simp [processCallback, hs, hm]

/-- A concrete engine state in software-monitor mode with the monitor
muted, used by the witnesses below. -/
def mutedState : EngineState :=
  { softwareMonitor := true
    monitorMuted := true
    gain := 1
    reverb := SchroederReverb.mk (3/10) [] []
    dsBuf := []
    frameBuf := [] }

/-- Witness for C8 on a concrete muted state and a 2-sample block. -/
theorem callback_muted_silence_witness :
    mutedState.softwareMonitor = true ∧ mutedState.monitorMuted = true ∧
    (processCallback mutedState [1/2, -3/4]).2
      = some (List.replicate 2 0, List.replicate 2 0) :=
  ⟨rfl, rfl, callback_muted_silence mutedState [1/2, -3/4] rfl rfl⟩

/-- C9: in software-monitor mode with the monitor muted, the callback never
touches the reverb: the comb/allpass filter states (and the monitor
configuration) are exactly those of the pre-call state, while `_ds_buf` and
`_frame_buf` evolve by the decimation step alone. -/
theorem callback_muted_reverb_frozen (st : EngineState) (micData : List ℚ)
    (hs : st.softwareMonitor = true) (hm : st.monitorMuted = true) :
    (processCallback st micData).1.reverb = st.reverb ∧
    (processCallback st micData).1.softwareMonitor = st.softwareMonitor ∧
    (processCallback st micData).1.monitorMuted = st.monitorMuted ∧
    (processCallback st micData).1.gain = st.gain ∧
    (processCallback st micData).1.dsBuf = (decimStep st.dsBuf micData).2 ∧
    (processCallback st micData).1.frameBuf
      = (if 0 < (decimStep st.dsBuf micData).1.length
          then st.frameBuf ++ [(decimStep st.dsBuf micData).1]
          else st.frameBuf) := by
  refine ⟨?_, rfl, rfl, rfl, rfl, rfl⟩
  simp [processCallback, hs, hm]

/-- Witness for C9: the concrete muted state keeps its reverb object
through a callback on a 3-sample block. -/
theorem callback_muted_reverb_frozen_witness :
    (processCallback mutedState [1/2, 1/4, 1/8]).1.reverb = mutedState.reverb :=
  (callback_muted_reverb_frozen mutedState [1/2, 1/4, 1/8] rfl rfl).1

theorem toInt16_range (x : ℚ) : -32768 ≤ toInt16 x ∧ toInt16 x ≤ 32767 := by
  unfold toInt16 truncQ
  set c := min 32767 (max (-32768) (x * 32767)) with hc
  have h1 : c ≤ 32767 := min_le_left _ _
  have h2 : (-32768 : ℚ) ≤ c := le_min (by norm_num) (le_max_left _ _)
  split_ifs with h0
  · refine ⟨?_, ?_⟩
    · have := Int.floor_nonneg.mpr h0
      omega
    · have := Int.floor_le_floor (α := ℚ) h1
      have h32 : ⌊(32767 : ℚ)⌋ = 32767 := by norm_num
      omega
  · push_neg at h0
    refine ⟨?_, ?_⟩
    · have := Int.floor_le_floor (α := ℚ) (show -c ≤ 32768 by linarith)
      have h32 : ⌊(32768 : ℚ)⌋ = 32768 := by norm_num
      omega
    · have := Int.floor_nonneg.mpr (show (0 : ℚ) ≤ -c by linarith)
      omega

/-- A concrete engine state in hardware-monitor mode with empty decimator
and frame buffers, used for the decimation scenarios. -/
def plainState : EngineState :=
  { softwareMonitor := false
    monitorMuted := false
    gain := 1
    reverb := SchroederReverb.mk 0 [] []
    dsBuf := []
    frameBuf := [] }

/-- C5 counterexample: feeding one 256-sample block of constant 0.5 leaves
85 int16 samples in the frame buffer, but each equals 16383
(`astype(np.int16)` truncates 0.5·32767 = 16383.5 toward zero), not
`round(0.5 * 32767) = 16384` as claimed. -/
theorem takeEvery3_replicate (a : ℚ) :
    ∀ m, takeEvery3 (List.replicate m a) = List.replicate ((m + 2) / 3) a := by
  intro m
  induction m using Nat.strong_induction_on with
  | _ m ih =>
    match m with
    | 0 => rfl
    | 1 => rfl
    | 2 => rfl
    | (k + 3) =>
      have hk := ih k (by omega)
      show takeEvery3 (a :: a :: a :: List.replicate k a)
          = List.replicate ((k + 5) / 3) a
      rw [show takeEvery3 (a :: a :: a :: List.replicate k a)
          = a :: takeEvery3 (List.replicate k a) from rfl, hk,
        show (k + 5) / 3 = (k + 2) / 3 + 1 by omega]
      rfl

theorem toInt16_half : toInt16 (1/2) = 16383 := by
  unfold toInt16 truncQ
  rw [show (1/2 : ℚ) * 32767 = 32767/2 by norm_num,
    max_eq_right (by norm_num : (-32768 : ℚ) ≤ 32767/2),
    min_eq_right (by norm_num : (32767/2 : ℚ) ≤ 32767),
    if_pos (by norm_num : (0 : ℚ) ≤ 32767/2)]
  rw [Int.floor_eq_iff]
  constructor <;> norm_num

theorem decimStep_half_block :
    decimStep [] (List.replicate 256 (1/2 : ℚ))
      = (List.replicate 85 (16383 : ℤ), [1/2]) := by
  show (List.map toInt16 (takeEvery3 ((List.replicate 256 (1/2 : ℚ)).take
          (3 * ((List.replicate 256 (1/2 : ℚ)).length / 3)))),
        (List.replicate 256 (1/2 : ℚ)).drop
          (3 * ((List.replicate 256 (1/2 : ℚ)).length / 3)))
      = (List.replicate 85 (16383 : ℤ), [1/2])
  rw [List.length_replicate, show 3 * ((256 : Nat) / 3) = 255 from rfl]
  rw [show (List.replicate 256 (1/2 : ℚ)).take 255
      = List.replicate 255 (1/2 : ℚ) by simp [List.take_replicate]]
  rw [takeEvery3_replicate, show (255 + 2) / 3 = 85 from rfl,
    List.map_replicate, toInt16_half]
  rw [show (List.replicate 256 (1/2 : ℚ)).drop 255
      = List.replicate 1 (1/2 : ℚ) by simp [List.drop_replicate]]
  rfl

theorem processCallback_half_block :
    processCallback plainState (List.replicate 256 (1/2))
      = ({ plainState with
            dsBuf := [1/2]
            frameBuf := [List.replicate 85 (16383 : ℤ)] }, none) := by
  show ({ plainState with
          reverb := plainState.reverb
          dsBuf := (decimStep [] (List.replicate 256 (1/2))).2
          frameBuf := if 0 < (decimStep [] (List.replicate 256 (1/2))).1.length
            then plainState.frameBuf ++ [(decimStep [] (List.replicate 256 (1/2))).1]
            else plainState.frameBuf }, none) = _
  rw [decimStep_half_block]
  simp [plainState]

theorem decim_scale_round_counterexample :
    (processCallback plainState (List.replicate 256 (1/2))).1.frameBuf
        = [List.replicate 85 (16383 : ℤ)] ∧
    round ((1/2 : ℚ) * 32767) = 16384 ∧ ¬ ((16383 : ℤ) = 16384) := by
  refine ⟨by rw [processCallback_half_block], ?_, by decide⟩
  rw [round_eq]
  norm_num

/-- C5 (amended): the 256-sample all-0.5 block yields exactly
`floor(256/3) = 85` int16 samples, each equal to `trunc(0.5 * 32767) =
16383`, with `256 mod 3 = 1` sample (of value 0.5) carried over; and in
general every decimated sample is scaled by 32767, clamped to the int16
range, and truncated toward zero, so it always lies in [-32768, 32767]. -/
theorem decim_half_block_truncation :
    (processCallback plainState (List.replicate 256 (1/2))).1.frameBuf
        = [List.replicate 85 (16383 : ℤ)] ∧
    (processCallback plainState (List.replicate 256 (1/2))).1.dsBuf = [1/2] ∧
    (∀ x : ℚ, -32768 ≤ toInt16 x ∧ toInt16 x ≤ 32767) :=
  ⟨by rw [processCallback_half_block], by rw [processCallback_half_block],
   toInt16_range⟩

/-- The loop of `JackAudioEngine.get_frame` (audio.py lines 234–255).
State visible to the loop: the local accumulator, the shared `_frame_buf`
chunk queue, and the `_running` flag.  The schedule lists the value of
`_running` observed at each `while` check (an empty schedule reads as the
flag having been cleared).  Each iteration drains every queued chunk into
the accumulator; once at least `FRAME_SIZE` samples are accumulated, the
first `FRAME_SIZE` are returned and the non-empty remainder is reinserted
at the front of the queue.  When the flag reads false the loop exits with
`none`, leaving the queue as it is and abandoning the accumulator.
Returns the delivered frame (or `none`) and the final queue. -/
def getFrameAux : List ℤ → List (List ℤ) → List Bool →
    Option (List ℤ) × List (List ℤ)
  | _, buf, [] => (none, buf)
  | accum, buf, r :: rest =>
    if r then
      let accum2 := accum ++ buf.flatten
      if FRAME_SIZE ≤ accum2.length then
        (some (accum2.take FRAME_SIZE),
         if 0 < (accum2.drop FRAME_SIZE).length
           then [accum2.drop FRAME_SIZE] else [])
      else getFrameAux accum2 [] rest
    else (none, buf)

/-- Model of `get_frame` started with its fresh empty accumulator. -/
def get_frame (buf : List (List ℤ)) (sched : List Bool) :
    Option (List ℤ) × List (List ℤ) :=
  getFrameAux [] buf sched

theorem getFrameAux_some_length (sched : List Bool) :
    ∀ (accum : List ℤ) (buf : List (List ℤ)) (frame : List ℤ),
      (getFrameAux accum buf sched).1 = some frame →
      frame.length = FRAME_SIZE := by
  induction sched with
  | nil => intro accum buf frame h; simp [getFrameAux] at h
  | cons r rest ih =>
    intro accum buf frame h
    by_cases hr : r
    · subst hr
      by_cases hlen : FRAME_SIZE ≤ (accum ++ buf.flatten).length
      · rw [show getFrameAux accum buf (true :: rest)
            = (some ((accum ++ buf.flatten).take FRAME_SIZE),
               if 0 < ((accum ++ buf.flatten).drop FRAME_SIZE).length
                 then [(accum ++ buf.flatten).drop FRAME_SIZE] else [])
            from by rw [getFrameAux, if_pos rfl, if_pos hlen]] at h
        simp only [Option.some.injEq] at h
        rw [← h, List.length_take]
        omega
      · rw [show getFrameAux accum buf (true :: rest)
            = getFrameAux (accum ++ buf.flatten) [] rest
            from by rw [getFrameAux, if_pos rfl, if_neg hlen]] at h
        exact ih _ _ _ h
    · simp only [Bool.not_eq_true] at hr
      subst hr
      simp [getFrameAux] at h

/-- C2: with the running flag set and at least `FRAME_SIZE` samples queued,
`get_frame` returns the first 1280 queued samples as the frame and leaves
exactly the remaining samples queued; pushing 1380 samples and calling once
returns a 1280-sample frame and leaves 100 samples queued; and whatever the
schedule and queue, a delivered frame always has exactly 1280 samples. -/
theorem get_frame_full_frame :
    (∀ (buf : List (List ℤ)) (rest : List Bool),
        FRAME_SIZE ≤ buf.flatten.length →
          (get_frame buf (true :: rest)).1
              = some (buf.flatten.take FRAME_SIZE) ∧
          ((get_frame buf (true :: rest)).2).flatten
              = buf.flatten.drop FRAME_SIZE) ∧
    (∀ rest : List Bool,
        get_frame [List.replicate 1380 (7 : ℤ)] (true :: rest)
          = (some (List.replicate 1280 (7 : ℤ)),
             [List.replicate 100 (7 : ℤ)])) ∧
    (∀ (accum : List ℤ) (buf : List (List ℤ)) (sched : List Bool)
        (frame : List ℤ),
        (getFrameAux accum buf sched).1 = some frame →
        frame.length = FRAME_SIZE) := by
  have main : ∀ (buf : List (List ℤ)) (rest : List Bool),
      FRAME_SIZE ≤ buf.flatten.length →
        get_frame buf (true :: rest)
          = (some (buf.flatten.take FRAME_SIZE),
             if 0 < (buf.flatten.drop FRAME_SIZE).length
               then [buf.flatten.drop FRAME_SIZE] else []) := by
    intro buf rest h
    unfold get_frame
    rw [getFrameAux, if_pos rfl, List.nil_append, if_pos h]
  refine ⟨fun buf rest h => ?_, fun rest => ?_,
    fun accum buf sched frame => getFrameAux_some_length sched accum buf frame⟩
  · rw [main buf rest h]
    refine ⟨rfl, ?_⟩
    by_cases h0 : 0 < (buf.flatten.drop FRAME_SIZE).length
    · rw [if_pos h0]; simp
    · rw [if_neg h0]
      simp only [List.flatten_nil]
      exact (List.length_eq_zero.mp (by omega)).symm
  · have h : FRAME_SIZE ≤ ([List.replicate 1380 (7 : ℤ)].flatten).length := by
      simp [FRAME_SIZE]
    have h1 : ([List.replicate 1380 (7 : ℤ)].flatten)
        = List.replicate 1380 (7 : ℤ) := by simp
    rw [main _ rest h, h1]
    norm_num [FRAME_SIZE, List.take_replicate, List.drop_replicate]

/-- Witness for C2: the 1380-sample scenario, instantiated through the
theorem at a concrete schedule. -/
theorem get_frame_full_frame_witness :
    get_frame [List.replicate 1380 (7 : ℤ)] [true]
      = (some (List.replicate 1280 (7 : ℤ)), [List.replicate 100 (7 : ℤ)]) :=
  get_frame_full_frame.2.1 []

/-- C7: when the running flag reads false at the `while` check, `get_frame`
returns `none` at once — no drain iteration runs and the queue, however
many samples it holds, is left untouched. -/
theorem get_frame_stopped (buf : List (List ℤ)) (rest : List Bool) :
    get_frame buf (false :: rest) = (none, buf) := rfl

/-- C10: if the flag is still set at the first check but cleared before the
second, and the queue holds fewer than `FRAME_SIZE` samples, `get_frame`
drains the queue into its local accumulator and then returns `none`: the
drained samples are gone — the final queue is empty, so no later call can
deliver them. -/
theorem get_frame_stop_discards (buf : List (List ℤ)) (rest : List Bool)
    (h : buf.flatten.length < FRAME_SIZE) :
    get_frame buf (true :: false :: rest) = (none, []) := by
  unfold get_frame
  rw [getFrameAux, if_pos rfl, List.nil_append, if_neg (by omega)]
  rfl

/-- Witness for C10: three queued samples are discarded when the flag
clears mid-call. -/
theorem get_frame_stop_discards_witness :
    get_frame [[5, 6, 7]] [true, false] = (none, []) :=
  get_frame_stop_discards [[5, 6, 7]] [] (by simp [FRAME_SIZE])

/-- The resampling step of `JackAudioEngine.play_buffer` (audio.py lines
276–281) on an int16 buffer, for source rates other than 48000 Hz:
`n_out = int(len * (48000 / source_rate))`; output sample `n` is
`audio[int(np.clip(n / (48000 / source_rate), 0, len - 1))]`.  The exact
quotients are non-negative, so Python's truncations coincide with `Nat`
division and the lower clip bound is vacuous. -/
def playResample (audio : List ℤ) (sourceRate : Nat) : List ℤ :=
  if sourceRate = JACK_RATE then audio
  else
    (List.range (audio.length * JACK_RATE / sourceRate)).map fun n =>
      audio.getD (min (n * sourceRate / JACK_RATE) (audio.length - 1)) 0

/-- The int16 → float conversion of `play_buffer` (audio.py line 285):
`audio_data.astype(np.float32) / 32768.0`. -/
def playNormalize (audio : List ℤ) : List ℚ :=
  audio.map fun v : ℤ => (v : ℚ) / 32768

/-- The buffer `play_buffer` hands to its short-lived playback client,
for an int16 input buffer: resample to the native rate, then normalize. -/
def play_buffer_prepare (audio : List ℤ) (sourceRate : Nat) : List ℚ :=
  playNormalize (playResample audio sourceRate)

/-- The index mapping exactly as the claim words it:
`floor(n * sourceRate⁻¹ * nativeRate)` clamped to `[0, len - 1]`. -/
def claimResampleIndex (lenIn sourceRate n : Nat) : Nat :=
  min (n * JACK_RATE / sourceRate) (lenIn - 1)

theorem playResample_example :
    playResample [0, 100, 200, 300] 24000
      = [0, 0, 100, 100, 200, 200, 300, 300] := by decide

theorem claimResample_example :
    (List.range 8).map (fun n =>
        ([0, 100, 200, 300] : List ℤ).getD (claimResampleIndex 4 24000 n) 0)
      = [0, 200, 300, 300, 300, 300, 300, 300] := by decide

/-- C4 counterexample: for the 4-sample int16 buffer [0, 100, 200, 300] at
source rate 24000 Hz, `play_buffer` produces
[0, 0, 100, 100, 200, 200, 300, 300] (normalized), which is NOT the buffer
the claimed index formula `floor(n * nativeRate / sourceRate)` yields —
they already differ at output sample 1 (0 vs 200/32768). -/
theorem play_buffer_index_counterexample :
    ¬ (play_buffer_prepare [0, 100, 200, 300] 24000
        = ((List.range 8).map fun n =>
            ([0, 100, 200, 300] : List ℤ).getD
              (claimResampleIndex 4 24000 n) 0).map fun v : ℤ => (v : ℚ) / 32768)
    := by
  intro h
  rw [play_buffer_prepare, playResample_example, claimResample_example,
    playNormalize] at h
  simp only [List.map_cons, List.map_nil, List.cons.injEq] at h
  have h1 := h.2.1
  norm_num at h1

/-- C4 (amended): for every int16 buffer and every source rate other than
the native 48000 Hz, the prepared buffer has `int(len * 48000/sourceRate)`
samples, and output sample `n` is the input sample at index
`floor(n * sourceRate / 48000)` — source over native, the reciprocal of
the claimed formula — clamped to `[0, len - 1]`, then normalized by
32768. -/
theorem play_buffer_nearest_index (audio : List ℤ) (sourceRate : Nat)
    (n : Nat) (hr : sourceRate ≠ JACK_RATE)
    (hn : n < audio.length * JACK_RATE / sourceRate) :
    (play_buffer_prepare audio sourceRate).length
        = audio.length * JACK_RATE / sourceRate ∧
    (play_buffer_prepare audio sourceRate).getD n 0
      = (audio.getD (min (n * sourceRate / JACK_RATE) (audio.length - 1)) 0
          : ℚ) / 32768 := by
  unfold play_buffer_prepare playNormalize playResample
  rw [if_neg hr]
  refine ⟨?_, ?_⟩
  · rw [List.length_map, List.length_map, List.length_range]
  · rw [List.getD_eq_getElem _ _ (by
      rw [List.length_map, List.length_map, List.length_range]; exact hn)]
    simp only [List.getElem_map, List.getElem_range]

/-- Witness for C4's amended theorem: output sample 1 of the concrete
scenario above is input sample 0 (index `floor(1 * 24000/48000) = 0`),
normalized. -/
theorem play_buffer_nearest_index_witness :
    (play_buffer_prepare [0, 100, 200, 300] 24000).getD 1 0
      = (([0, 100, 200, 300] : List ℤ).getD
          (min (1 * 24000 / JACK_RATE)
            (([0, 100, 200, 300] : List ℤ).length - 1)) 0 : ℚ) / 32768 :=
  (play_buffer_nearest_index [0, 100, 200, 300] 24000 1
    (by decide) (by decide)).2

end AutoKJ
